import Mathlib

/-!
Shallow embedding of the thuasta email-submission review system
(`src/review_system.py`, `src/email_message_utils.py`) and proofs about it.

Strings are modelled as `List Char`; byte strings as `List Nat` with every
element below 256.  Python regular-expression searches are modelled by
deterministic scanning functions that implement the same leftmost-match
semantics for the concrete patterns used in the source.
-/

namespace EmailSubmission

/-- Substring test: does `needle` occur inside `hay`?  Models
`re.search` for a pattern that is a plain literal string
(such as `re.compile(r"\/accept").search`). -/
def contains_substring (needle hay : List Char) : Bool :=
  hay.tails.any (fun suffix => needle.isPrefixOf suffix)

/-! ### Base64 codec, modelling Python `base64.b64encode` / `base64.b64decode`
as used in `review_system.py` (`_send_review_request` encodes the
Message-ID, `_get_submission_message` decodes the submission id). -/

/-- Code point of the standard base64 alphabet character for a sextet. -/
def b64code (s : Nat) : Nat :=
  if s < 26 then s + 65
  else if s < 52 then s + 71
  else if s < 62 then s - 4
  else if s = 62 then 43
  else 47

/-- Standard base64 alphabet character for a sextet. -/
def encC (s : Nat) : Char :=
  Char.ofNat (b64code s)

/-- Inverse of the base64 alphabet table: sextet value of a character. -/
def decC (c : Char) : Option Nat :=
  let n := c.toNat
  if 65 ≤ n ∧ n ≤ 90 then some (n - 65)
  else if 97 ≤ n ∧ n ≤ 122 then some (n - 97 + 26)
  else if 48 ≤ n ∧ n ≤ 57 then some (n - 48 + 52)
  else if n = 43 then some 62
  else if n = 47 then some 63
  else none

/-- Python `base64.b64encode` on a byte string (bytes are `Nat` below 256):
groups of three bytes become four alphabet characters, with `=` padding for
a final group of one or two bytes. -/
def b64encode : List Nat → List Char
  | [] => []
  | [a] => [encC (a / 4), encC (a % 4 * 16), '=', '=']
  | [a, b] => [encC (a / 4), encC (a % 4 * 16 + b / 16), encC (b % 16 * 4), '=']
  | a :: b :: c :: rest =>
      encC (a / 4) :: encC (a % 4 * 16 + b / 16) :: encC (b % 16 * 4 + c / 64)
        :: encC (c % 64) :: b64encode rest

/-- Python `base64.b64decode` on the strings produced by `b64encode`:
groups of four characters become three bytes, a trailing `=` or `==`
signalling a short final group; anything malformed yields `none`
(Python raises). -/
def b64decode : List Char → Option (List Nat)
  | [] => some []
  | c0 :: c1 :: c2 :: c3 :: rest =>
      match decC c0, decC c1 with
      | some s0, some s1 =>
          if c2 = '=' then
            if c3 = '=' ∧ rest = [] then some [s0 * 4 + s1 / 16] else none
          else
            match decC c2 with
            | some s2 =>
                if c3 = '=' then
                  if rest = [] then some [s0 * 4 + s1 / 16, s1 % 16 * 16 + s2 / 4] else none
                else
                  match decC c3 with
                  | some s3 =>
                      match b64decode rest with
                      | some bs =>
                          some ((s0 * 4 + s1 / 16) :: (s1 % 16 * 16 + s2 / 4)
                            :: (s2 % 4 * 64 + s3) :: bs)
                      | none => none
                  | none => none
            | none => none
      | _, _ => none
  | _ => none

lemma decC_encC : ∀ s : Fin 64, decC (encC s.val) = some s.val := by decide

lemma decC_encC_of_lt {s : Nat} (h : s < 64) : decC (encC s) = some s :=
  decC_encC ⟨s, h⟩

lemma decC_pad : decC '=' = none := by decide

lemma encC_ne_pad {s : Nat} (h : s < 64) : encC s ≠ '=' := by
  intro he
  have h1 := decC_encC_of_lt h
  rw [he, decC_pad] at h1
  exact Option.noConfusion h1

/-- The base64 codec round-trips on every byte string. -/
theorem b64_roundtrip : ∀ m : List Nat, (∀ x ∈ m, x < 256) →
    b64decode (b64encode m) = some m := by
  intro m
  induction m using b64encode.induct with
  | case1 =>
      intro _
      rfl
  | case2 a =>
      intro h
      have ha : a < 256 := h a (by simp)
      have e0 : decC (encC (a / 4)) = some (a / 4) := decC_encC_of_lt (by omega)
      have e1 : decC (encC (a % 4 * 16)) = some (a % 4 * 16) := decC_encC_of_lt (by omega)
      simp only [b64encode, b64decode, e0, e1]
      simp
      omega
  | case3 a b =>
      intro h
      have ha : a < 256 := h a (by simp)
      have hb : b < 256 := h b (by simp)
      have e0 : decC (encC (a / 4)) = some (a / 4) := decC_encC_of_lt (by omega)
      have e1 : decC (encC (a % 4 * 16 + b / 16)) = some (a % 4 * 16 + b / 16) :=
        decC_encC_of_lt (by omega)
      have e2 : decC (encC (b % 16 * 4)) = some (b % 16 * 4) := decC_encC_of_lt (by omega)
      have ne2 : encC (b % 16 * 4) ≠ '=' := encC_ne_pad (by omega)
      simp only [b64encode, b64decode, e0, e1, e2]
      rw [if_neg ne2]
      simp
      omega
  | case4 a b c rest ih =>
      intro h
      have ha : a < 256 := h a (by simp)
      have hb : b < 256 := h b (by simp)
      have hc : c < 256 := h c (by simp)
      have hrest : ∀ x ∈ rest, x < 256 := by
        intro x hx
        exact h x (by simp [hx])
      have e0 : decC (encC (a / 4)) = some (a / 4) := decC_encC_of_lt (by omega)
      have e1 : decC (encC (a % 4 * 16 + b / 16)) = some (a % 4 * 16 + b / 16) :=
        decC_encC_of_lt (by omega)
      have e2 : decC (encC (b % 16 * 4 + c / 64)) = some (b % 16 * 4 + c / 64) :=
        decC_encC_of_lt (by omega)
      have e3 : decC (encC (c % 64)) = some (c % 64) := decC_encC_of_lt (by omega)
      have ne2 : encC (b % 16 * 4 + c / 64) ≠ '=' := encC_ne_pad (by omega)
      have ne3 : encC (c % 64) ≠ '=' := encC_ne_pad (by omega)
      simp only [b64encode, b64decode, e0, e1, e2, e3, ih hrest]
      rw [if_neg ne2, if_neg ne3]
      simp
      omega

/-! ### Subject-line tag parsing -/

/-- Character class `[A-Za-z0-9+\/=]` of the submission-tag pattern in
`review_system.py` (`_on_receive_review`). -/
def isB64 (c : Char) : Bool :=
  ('A' ≤ c && c ≤ 'Z') || ('a' ≤ c && c ≤ 'z') || ('0' ≤ c && c ≤ '9')
    || c = '+' || c = '/' || c = '='

/-- Model of `re.compile(r"#([A-Za-z0-9+\/=]+)#").search` on the subject
(`review_system.py`, `_on_receive_review`): leftmost position at which a
`#` is followed by a nonempty run of base64-alphabet characters and a
closing `#`; the captured group is that run.  Greedy backtracking inside
the run cannot produce a different match because `#` is not in the
character class, so the scan below is equivalent to the regex search. -/
def parse_tag : List Char → Option (List Char)
  | [] => none
  | c :: rest =>
      if c = '#' then
        match rest.drop (rest.takeWhile isB64).length with
        | '#' :: _ =>
            if (rest.takeWhile isB64).isEmpty then parse_tag rest
            else some (rest.takeWhile isB64)
        | _ => parse_tag rest
      else parse_tag rest

/-- Modelled from the spec's words (section 4.2): parseTag as "a greedy
match of the first `#…#` span with no embedded `#`" — the interior runs up
to the next `#`, with no restriction to the base64 alphabet.  Used only to
compare the spec's description against the code's `parse_tag`. -/
def spec_parse_tag : List Char → Option (List Char)
  | [] => none
  | c :: rest =>
      if c = '#' then
        match rest.drop (rest.takeWhile (fun d => !(d = '#'))).length with
        | _ :: _ => some (rest.takeWhile (fun d => !(d = '#')))
        | [] => spec_parse_tag rest
      else spec_parse_tag rest

/-- Model of `re.compile(r"#(.+)#").search` in
`email_message_utils.extract_submission_id_from_subject`: leftmost `#`
followed by a greedy nonempty run of non-newline characters and a closing
`#`; greediness makes the closing `#` the last one reachable without
crossing a newline. -/
def extract_submission_id_from_subject : List Char → Option (List Char)
  | [] => none
  | c :: rest =>
      if c = '#' then
        match ((List.range (rest.takeWhile (fun d => !(d = '\n'))).length).filter
            (fun j => decide (1 ≤ j) &&
              ((rest.takeWhile (fun d => !(d = '\n'))).getD j ' ' == '#'))).getLast? with
        | some j => some ((rest.takeWhile (fun d => !(d = '\n'))).take j)
        | none => extract_submission_id_from_subject rest
      else extract_submission_id_from_subject rest

/-- Tag formatting as done by every subject f-string in the source:
`f"... #{submission_id}#"`. -/
def format_tag (t : List Char) : List Char :=
  '#' :: (t ++ ['#'])

/-- The subject contains a well-formed tag span: a `#`, a nonempty run of
base64-alphabet characters, and a closing `#`. -/
def HasSpan (s : List Char) : Prop :=
  ∃ p t q, s = p ++ '#' :: (t ++ '#' :: q) ∧ t ≠ [] ∧ ∀ c ∈ t, isB64 c = true

/-- `t` is the token the tag matcher should report for subject `s`:
a nonempty base64-alphabet run forming a `#t#` span, at the leftmost
position at which any such span starts. -/
def TagMatch (s t : List Char) : Prop :=
  t ≠ [] ∧ (∀ c ∈ t, isB64 c = true) ∧
    ∃ p q, s = p ++ '#' :: (t ++ '#' :: q) ∧
      ∀ p2 t2 q2, s = p2 ++ '#' :: (t2 ++ '#' :: q2) → t2 ≠ [] →
        (∀ c ∈ t2, isB64 c = true) → p.length ≤ p2.length

lemma isB64_hash : isB64 '#' = false := by decide

lemma takeWhile_all_append (t q : List Char) (h : ∀ c ∈ t, isB64 c = true) :
    (t ++ '#' :: q).takeWhile isB64 = t := by
  induction t with
  | nil => simp [List.takeWhile_cons, isB64_hash]
  | cons a t ih =>
      have ha : isB64 a = true := h a (by simp)
      simp only [List.cons_append, List.takeWhile_cons, ha, if_true]
      rw [ih (fun c hc => h c (by simp [hc]))]

lemma drop_takeWhile_append (t q : List Char) (h : ∀ c ∈ t, isB64 c = true) :
    (t ++ '#' :: q).drop ((t ++ '#' :: q).takeWhile isB64).length = '#' :: q := by
  rw [takeWhile_all_append t q h]
  simp [List.drop_left t ('#' :: q)]

lemma drop_takeWhile_length (p : Char → Bool) (l : List Char) :
    l.drop (l.takeWhile p).length = l.dropWhile p := by
  induction l with
  | nil => rfl
  | cons a l ih =>
      by_cases hp : p a <;> simp [List.takeWhile_cons, List.dropWhile_cons, hp, ih]

lemma takeWhile_drop_decomp (l : List Char) :
    l = l.takeWhile isB64 ++ l.drop (l.takeWhile isB64).length := by
  rw [drop_takeWhile_length]
  exact (List.takeWhile_append_dropWhile isB64 l).symm

lemma tagmatch_lift (c : Char) (rest t : List Char)
    (hno : ∀ t2 q2, (c :: rest) = '#' :: (t2 ++ '#' :: q2) → t2 ≠ [] →
        (∀ x ∈ t2, isB64 x = true) → False)
    (h : TagMatch rest t) : TagMatch (c :: rest) t := by
  obtain ⟨hne, hall, p, q, heq, hmin⟩ := h
  refine ⟨hne, hall, c :: p, q, by simp [heq], ?_⟩
  intro p2 t2 q2 heq2 ht2 hb2
  cases p2 with
  | nil => exact absurd (hno t2 q2 (by simpa using heq2) ht2 hb2) not_false
  | cons a p2' =>
      have ha : rest = p2' ++ '#' :: (t2 ++ '#' :: q2) := by
        have := heq2
        simp only [List.cons_append] at this
        exact (List.cons.injEq _ _ _ _ ▸ this).2
      have := hmin p2' t2 q2 ha ht2 hb2
      simpa using Nat.succ_le_succ this

lemma parse_tag_sound : ∀ s t : List Char, parse_tag s = some t → TagMatch s t := by
  intro s
  induction s with
  | nil => intro t h; simp [parse_tag] at h
  | cons c rest ih =>
      intro t h
      by_cases hc : c = '#'
      · subst hc
        rw [parse_tag, if_pos rfl] at h
        split at h
        · next tl heq =>
            by_cases he : (rest.takeWhile isB64).isEmpty
            · rw [if_pos he] at h
              refine tagmatch_lift '#' rest t ?_ (ih t h)
              intro t2 q2 heq2 ht2 hb2
              have hr : rest = t2 ++ '#' :: q2 := by simpa using heq2
              have htw : rest.takeWhile isB64 = t2 := by
                rw [hr]; exact takeWhile_all_append t2 q2 hb2
              rw [htw] at he
              exact ht2 (List.isEmpty_iff.mp he)
            · rw [if_neg he] at h
              have ht : t = rest.takeWhile isB64 := by
                injection h with h1
                exact h1.symm
              subst ht
              refine ⟨fun hnil => he (by rw [hnil]; rfl), ?_, [], tl, ?_, ?_⟩
              · intro x hx
                exact List.mem_takeWhile_imp hx
              · have hde := takeWhile_drop_decomp rest
                rw [heq] at hde
                simp only [List.nil_append]
                rw [← hde]
              · intro p2 t2 q2 _ _ _
                simp
        · next hnomatch =>
            refine tagmatch_lift '#' rest t ?_ (ih t h)
            intro t2 q2 heq2 ht2 hb2
            have hr : rest = t2 ++ '#' :: q2 := by simpa using heq2
            have hda := drop_takeWhile_append t2 q2 hb2
            rw [← hr] at hda
            exact hnomatch q2 hda
      · rw [parse_tag, if_neg hc] at h
        refine tagmatch_lift c rest t ?_ (ih t h)
        intro t2 q2 heq2 _ _
        exact hc (by injection heq2)

lemma parse_tag_isSome_cons (c : Char) (rest : List Char)
    (h : (parse_tag rest).isSome) : (parse_tag (c :: rest)).isSome := by
  by_cases hc : c = '#'
  · subst hc
    rw [parse_tag, if_pos rfl]
    split
    · split
      · exact h
      · simp
    · exact h
  · rw [parse_tag, if_neg hc]
    exact h

lemma parse_tag_isSome_of_span : ∀ p t q : List Char, t ≠ [] →
    (∀ c ∈ t, isB64 c = true) →
    (parse_tag (p ++ '#' :: (t ++ '#' :: q))).isSome := by
  intro p
  induction p with
  | nil =>
      intro t q ht hb
      rw [List.nil_append, parse_tag, if_pos rfl]
      have hdrop := drop_takeWhile_append t q hb
      split
      · next tl heq =>
          rw [if_neg ?_]
          · simp
          · rw [takeWhile_all_append t q hb]
            intro hemp
            exact ht (List.isEmpty_iff.mp hemp)
      · next hnomatch => exact absurd hdrop (fun hh => hnomatch q hh)
  | cons a p ih =>
      intro t q ht hb
      exact parse_tag_isSome_cons a _ (ih t q ht hb)

lemma parse_tag_none_iff (s : List Char) : parse_tag s = none ↔ ¬ HasSpan s := by
  constructor
  · intro hn hspan
    obtain ⟨p, t, q, heq, ht, hb⟩ := hspan
    have := parse_tag_isSome_of_span p t q ht hb
    rw [← heq, hn] at this
    exact Bool.noConfusion this
  · intro hns
    cases hs : parse_tag s with
    | none => rfl
    | some t =>
        obtain ⟨ht, hb, p, q, heq, _⟩ := parse_tag_sound s t hs
        exact absurd ⟨p, t, q, heq, ht, hb⟩ hns

/-! ### Address extraction and message classification
(`review_system.py`: `_extract_email_address`, `_get_email_category`). -/

/-- Python `\w` word character; modelled over the ASCII range
(alphanumeric or underscore). -/
def isWordChar (c : Char) : Bool :=
  c.isAlphanum || c = '_'

/-- Character class `[\w\.+-]` of the local part of the address pattern. -/
def isLocalChar (c : Char) : Bool :=
  isWordChar c || c = '.' || c = '+' || c = '-'

/-- Character class `[\w-]` of a domain label. -/
def isDomainChar (c : Char) : Bool :=
  isWordChar c || c = '-'

/-- Longest chain of dot-separated nonempty `[\w-]+` labels at the front
of `s`, together with the label count; `none` when no label starts here.
Models the greedy, backtracking match of `([\w-]+\.)+[\w-]+` (a failed
continuation after a dot backtracks to end the domain at the previous
label).  `fuel` bounds the recursion and is always called with at least
`s.length`, which suffices because every step consumes the leading label
and its dot. -/
def domain_chain : Nat → List Char → Option (List Char × Nat)
  | 0, _ => none
  | fuel + 1, s =>
      let lab := s.takeWhile isDomainChar
      if lab.isEmpty then none
      else
        match s.drop lab.length with
        | '.' :: rest =>
            match domain_chain fuel rest with
            | some (more, k) => some (lab ++ '.' :: more, k + 1)
            | none => some (lab, 1)
        | _ => some (lab, 1)

/-- Attempt of the whole pattern `[\w\.+-]+@([\w-]+\.)+[\w-]+` anchored at
the start of `s`: a nonempty greedy local part, an `@`, and a domain chain
with at least two labels. -/
def match_email_at (s : List Char) : Option (List Char) :=
  let loc := s.takeWhile isLocalChar
  if loc.isEmpty then none
  else
    match s.drop loc.length with
    | '@' :: rest =>
        match domain_chain rest.length rest with
        | some (dom, k) => if 2 ≤ k then some (loc ++ '@' :: dom) else none
        | none => none
    | _ => none

/-- Model of `ReviewSystem._extract_email_address`:
`re.search(r"[\w\.+-]+@([\w-]+\.)+[\w-]+", text)`, returning the whole
match of the leftmost position at which the pattern matches. -/
def extract_email_address : List Char → Option (List Char)
  | [] => none
  | c :: rest =>
      match match_email_at (c :: rest) with
      | some r => some r
      | none => extract_email_address rest

/-- The seven message categories of `review_system.EmailCategory`. -/
inductive EmailCategory
  | submission
  | submission_notif
  | submission_feedback_accept
  | submission_feedback_reject
  | review_request
  | review
  | publication_notif
deriving DecidableEq, Repr

/-- An email message as the engine sees it: the raw `From` header, the
subject, the `Message-ID`, the text produced by
`get_body(preferencelist=("html", "plain")).get_content()` when a body
part exists, and the store's SEEN flag. -/
structure EmailMsg where
  from_header : List Char
  subject : List Char
  message_id : List Char
  body_text : Option (List Char)
  seen : Bool
deriving DecidableEq, Repr

/-- Configuration dataclass `ReviewSystemConfig`. -/
structure ReviewSystemConfig where
  email_address : List Char
  email_password : List Char
  email_imap_host : List Char
  email_smtp_host : List Char
  reviewer_email_address_list : List (List Char)
  min_review_count : Nat
deriving DecidableEq, Repr

/-- Model of `ReviewSystem._get_email_category`: no extractable sender or
the system's own address yields `none` (the message is ignored); a
reviewer address yields REVIEW; anything else SUBMISSION. -/
def get_email_category (cfg : ReviewSystemConfig) (m : EmailMsg) :
    Option EmailCategory :=
  match extract_email_address m.from_header with
  | none => none
  | some addr =>
      if addr = cfg.email_address then none
      else if addr ∈ cfg.reviewer_email_address_list then some EmailCategory.review
      else some EmailCategory.submission

/-! ### Review aggregation and quorum decision
(`review_system.py`: `_get_seen_reviews`, `_on_receive_review`). -/

/-- The formatted tag `#sid#` occurs in the subject; models the IMAP
search criterion `SUBJECT "#sid#"` (substring match on the header). -/
def subject_has_tag (sid subj : List Char) : Bool :=
  contains_substring ('#' :: (sid ++ ['#'])) subj

/-- The IMAP search `(SEEN SUBJECT "#sid#")` over the store, in the
store's native enumeration order. -/
def imap_search_seen_subject (store : List EmailMsg) (sid : List Char) :
    List EmailMsg :=
  store.filter (fun m => m.seen && subject_has_tag sid m.subject)

/-- The fetch loop of `_get_seen_reviews`: walk the search results and
keep exactly those messages classified as REVIEW.  Note that the loop
performs no de-duplication of any kind. -/
def collect_reviews (cfg : ReviewSystemConfig) : List EmailMsg → List EmailMsg
  | [] => []
  | m :: rest =>
      if get_email_category cfg m = some EmailCategory.review then
        m :: collect_reviews cfg rest
      else
        collect_reviews cfg rest

/-- Model of `ReviewSystem._get_seen_reviews`. -/
def get_seen_reviews (cfg : ReviewSystemConfig) (store : List EmailMsg)
    (sid : List Char) : List EmailMsg :=
  collect_reviews cfg (imap_search_seen_subject store sid)

/-- The literal accept command pattern `\/accept`. -/
def accept_cmd : List Char :=
  "/accept".toList

/-- The reject command the spec speaks of; the code never searches for
it. -/
def reject_cmd : List Char :=
  "/reject".toList

/-- Does this review count as an accept vote?  Mirrors the counting loop
of `_on_receive_review`: a review with no extractable body is skipped,
otherwise the body is searched for `/accept`. -/
def is_accept_vote (m : EmailMsg) : Bool :=
  match m.body_text with
  | none => false
  | some t => contains_substring accept_cmd t

/-- The `accept_review_count` accumulation loop of `_on_receive_review`. -/
def accept_review_count : List EmailMsg → Nat
  | [] => 0
  | r :: rest =>
      match r.body_text with
      | none => accept_review_count rest
      | some t =>
          (if contains_substring accept_cmd t then 1 else 0) + accept_review_count rest

/-- The three-backtick fence delimiting a reject reason. -/
def fence : List Char :=
  "```".toList

/-- Model of `re.search(r"```(.*)```", text, re.DOTALL)` in
`_send_submission_feedback_reject`: the captured group runs from the end
of the leftmost opening fence to the start of the rightmost fence that
still lies at least three characters further on; `none` when no such pair
exists. -/
def extract_reason : List Char → Option (List Char)
  | [] => none
  | c :: rest =>
      if fence.isPrefixOf (c :: rest) then
        match ((List.range ((c :: rest).drop 3).length).filter
            (fun j => fence.isPrefixOf (((c :: rest).drop 3).drop j))).getLast? with
        | some j => some (((c :: rest).drop 3).take j)
        | none => extract_reason rest
      else extract_reason rest

/-- The `review_texts` collection loop of `_send_submission_feedback_reject`:
for every review (accept or not), take the fenced text if present and
silently skip the review otherwise; a missing body counts as empty text. -/
def reject_review_texts : List EmailMsg → List (List Char)
  | [] => []
  | r :: rest =>
      match extract_reason (r.body_text.getD []) with
      | none => reject_review_texts rest
      | some reason => reason :: reject_review_texts rest

/-- Outcome of one `_on_receive_review` evaluation. -/
inductive ReviewOutcome
  | wait
  | ignore_over_quorum
  | accepted
  | rejected (reasons : List (List Char))
deriving DecidableEq, Repr

/-- The quorum gate and decision of `_on_receive_review` after the seen
reviews have been aggregated: fewer reviews than `min_review_count` waits,
more ignores, exactly the quorum decides by comparing the accept count
with the quorum. -/
def review_decision (cfg : ReviewSystemConfig) (seen : List EmailMsg) :
    ReviewOutcome :=
  if seen.length < cfg.min_review_count then ReviewOutcome.wait
  else if cfg.min_review_count < seen.length then ReviewOutcome.ignore_over_quorum
  else if cfg.min_review_count ≤ accept_review_count seen then ReviewOutcome.accepted
  else ReviewOutcome.rejected (reject_review_texts seen)

/-- The notifications each outcome plans: an accepted submission sends the
publication request and the acceptance feedback, a rejected one sends the
rejection feedback carrying the collected reasons, and WAIT or over-quorum
plan nothing (`_on_receive_review` returns early). -/
inductive PlannedSend
  | publication_request
  | feedback_accept
  | feedback_reject (reasons : List (List Char))
deriving DecidableEq, Repr

def planned_sends : ReviewOutcome → List PlannedSend
  | ReviewOutcome.wait => []
  | ReviewOutcome.ignore_over_quorum => []
  | ReviewOutcome.accepted => [PlannedSend.publication_request, PlannedSend.feedback_accept]
  | ReviewOutcome.rejected rs => [PlannedSend.feedback_reject rs]

/-- Model of `_on_receive_review` end to end: extract the tag from the
subject (no tag aborts), aggregate the seen reviews, gate on the quorum
and decide. -/
def on_receive_review (cfg : ReviewSystemConfig) (store : List EmailMsg)
    (m : EmailMsg) : Option ReviewOutcome :=
  match parse_tag m.subject with
  | none => none
  | some sid => some (review_decision cfg (get_seen_reviews cfg store sid))

/-! ### Submission path
(`review_system.py`: `_on_receive_submission`, `_send_review_request`,
`_send_submission_notification`). -/

/-- UTF-8 encoding of one character, as Python `str.encode()` produces. -/
def utf8_encode_char (c : Char) : List Nat :=
  let n := c.toNat
  if n < 128 then [n]
  else if n < 2048 then [192 + n / 64, 128 + n % 64]
  else if n < 65536 then [224 + n / 4096, 128 + n / 64 % 64, 128 + n % 64]
  else [240 + n / 262144, 128 + n / 4096 % 64, 128 + n / 64 % 64, 128 + n % 64]

/-- UTF-8 encoding of a string, as Python `str.encode()`. -/
def utf8_encode (s : List Char) : List Nat :=
  (s.map utf8_encode_char).flatten

/-- The submission id derived in `_send_review_request`:
`base64.b64encode(submission_message["Message-ID"].encode()).decode()`. -/
def calc_submission_token (message_id : List Char) : List Char :=
  b64encode (utf8_encode message_id)

/-- An outbound message, restricted to the header fields the claims are
about. -/
structure OutboundMsg where
  from_header : List Char
  to_header : List Char
  subject : List Char
  in_reply_to : Option (List Char)
deriving DecidableEq, Repr

/-- The display From header `f"自动化系学生科协 <{self.config.email_address}>"`. -/
def display_from (cfg : ReviewSystemConfig) : List Char :=
  "自动化系学生科协 <".toList ++ cfg.email_address ++ ">".toList

/-- Model of `_send_review_request`: addressed to the comma-joined
reviewer list, subject carrying the freshly encoded submission tag. -/
def send_review_request (cfg : ReviewSystemConfig) (m : EmailMsg) : OutboundMsg :=
  { from_header := display_from cfg
    to_header := List.intercalate ", ".toList cfg.reviewer_email_address_list
    subject := "科协周报审核请求 #".toList ++ calc_submission_token m.message_id ++ ['#']
    in_reply_to := none }

/-- Model of `_send_submission_notification`: the acknowledgement sent
back to the author. -/
def send_submission_notification (cfg : ReviewSystemConfig) (m : EmailMsg) :
    OutboundMsg :=
  { from_header := display_from cfg
    to_header := m.from_header
    subject := "科协周报投稿已收到".toList
    in_reply_to := some m.message_id }

/-- Model of `_on_receive_submission`: first the review request, then the
acknowledgement. -/
def on_receive_submission (cfg : ReviewSystemConfig) (m : EmailMsg) :
    List OutboundMsg :=
  [send_review_request cfg m, send_submission_notification cfg m]

/-! ### The run loop (`review_system.py`, `run`). -/

/-- The per-message loop of `ReviewSystem.run`: each unseen message is
processed inside a `try`; an exception is logged and the loop continues
with the next message.  The trace records, in order, every message the
loop attempted together with whether its step succeeded. -/
def run_loop {α σ ε : Type} (step : α → σ → Except ε σ) :
    List α → σ → σ × List (α × Bool)
  | [], st => (st, [])
  | m :: rest, st =>
      match step m st with
      | Except.ok st2 =>
          let r := run_loop step rest st2
          (r.1, (m, true) :: r.2)
      | Except.error _ =>
          let r := run_loop step rest st
          (r.1, (m, false) :: r.2)

/-! ### Helper lemmas shared by several claims -/

lemma collect_reviews_eq_filter (cfg : ReviewSystemConfig) (l : List EmailMsg) :
    collect_reviews cfg l =
      l.filter (fun m => get_email_category cfg m == some EmailCategory.review) := by
  induction l with
  | nil => rfl
  | cons m rest ih =>
      by_cases h : get_email_category cfg m = some EmailCategory.review
      · rw [collect_reviews, if_pos h]
        simp [List.filter_cons, h, ih]
      · rw [collect_reviews, if_neg h]
        simp [List.filter_cons, h, ih]

lemma get_seen_reviews_eq_filter (cfg : ReviewSystemConfig) (store : List EmailMsg)
    (sid : List Char) :
    get_seen_reviews cfg store sid =
      store.filter (fun m => m.seen && subject_has_tag sid m.subject &&
        (get_email_category cfg m == some EmailCategory.review)) := by
  unfold get_seen_reviews imap_search_seen_subject
  rw [collect_reviews_eq_filter, List.filter_filter]
  congr 1
  funext m
  cases h1 : m.seen <;>
    cases h2 : subject_has_tag sid m.subject <;>
      cases h3 : (get_email_category cfg m == some EmailCategory.review) <;>
        simp [h1, h2, h3]

lemma mem_get_seen_reviews {cfg : ReviewSystemConfig} {store : List EmailMsg}
    {sid : List Char} {m : EmailMsg} (hm : m ∈ store) (hs : m.seen = true)
    (ht : subject_has_tag sid m.subject = true)
    (hc : get_email_category cfg m = some EmailCategory.review) :
    m ∈ get_seen_reviews cfg store sid := by
  rw [get_seen_reviews_eq_filter]
  refine List.mem_filter.mpr ⟨hm, ?_⟩
  simp [hs, ht, hc]

lemma accept_review_count_cons (m : EmailMsg) (l : List EmailMsg) :
    accept_review_count (m :: l) =
      (if is_accept_vote m then 1 else 0) + accept_review_count l := by
  cases hb : m.body_text <;> simp [accept_review_count, is_accept_vote, hb]

lemma accept_review_count_append (l1 l2 : List EmailMsg) :
    accept_review_count (l1 ++ l2) =
      accept_review_count l1 + accept_review_count l2 := by
  induction l1 with
  | nil => simp [accept_review_count]
  | cons m rest ih =>
      rw [List.cons_append, accept_review_count_cons, accept_review_count_cons, ih]
      omega

/-! ### Claims -/

/-- C1: for quorum size `required ≥ 1` and aggregated vote count `n`:
`n < required` outputs WAIT and plans no notifications; `n = required`
computes a decision (ACCEPT or REJECT); `n > required` outputs the
over-quorum ignore and plans no notifications.  With the quorum
quantified, the first clause is exactly the monotonicity statement: any
`required` strictly above the vote count yields WAIT. -/
theorem quorum_gating (cfg : ReviewSystemConfig) (seen : List EmailMsg)
    (_hreq : 1 ≤ cfg.min_review_count) :
    (seen.length < cfg.min_review_count →
      review_decision cfg seen = ReviewOutcome.wait ∧
        planned_sends (review_decision cfg seen) = [])
    ∧ (seen.length = cfg.min_review_count →
      review_decision cfg seen = ReviewOutcome.accepted ∨
        review_decision cfg seen = ReviewOutcome.rejected (reject_review_texts seen))
    ∧ (cfg.min_review_count < seen.length →
      review_decision cfg seen = ReviewOutcome.ignore_over_quorum ∧
        planned_sends (review_decision cfg seen) = []) := by
  unfold review_decision
  refine ⟨?_, ?_, ?_⟩ <;> intro h
  · rw [if_pos h]
    exact ⟨rfl, rfl⟩
  · rw [if_neg (by omega), if_neg (by omega)]
    by_cases ha : cfg.min_review_count ≤ accept_review_count seen
    · left
      rw [if_pos ha]
    · right
      rw [if_neg ha]
  · rw [if_neg (by omega), if_pos h]
    exact ⟨rfl, rfl⟩

def cfg_w1 : ReviewSystemConfig :=
  { email_address := "sys@x.y".toList
    email_password := []
    email_imap_host := []
    email_smtp_host := []
    reviewer_email_address_list := ["rev@a.b".toList]
    min_review_count := 2 }

/-- Witness for `quorum_gating`: with quorum 2 and no votes the engine
waits and plans nothing. -/
theorem quorum_gating_witness :
    review_decision cfg_w1 [] = ReviewOutcome.wait ∧
      planned_sends (review_decision cfg_w1 []) = [] :=
  (quorum_gating cfg_w1 [] (by decide)).1 (by decide)

/-- Witness for `b64_roundtrip` on the bytes of the ASCII string
`Msg1`. -/
theorem b64_roundtrip_witness :
    (∀ x ∈ [77, 115, 103, 49], x < 256) ∧
      b64decode (b64encode [77, 115, 103, 49]) = some [77, 115, 103, 49] :=
  ⟨by decide, b64_roundtrip [77, 115, 103, 49] (by decide)⟩

/-- C6: the classifier is total and exclusive — every message gets exactly
one of {ignored, REVIEW, SUBMISSION}; no extractable sender is ignored;
the system's own address is always ignored; otherwise reviewers give
REVIEW and everyone else SUBMISSION. -/
theorem classifier_total (cfg : ReviewSystemConfig) (m : EmailMsg) :
    (get_email_category cfg m = none ∨
      get_email_category cfg m = some EmailCategory.review ∨
      get_email_category cfg m = some EmailCategory.submission)
    ∧ (extract_email_address m.from_header = none → get_email_category cfg m = none)
    ∧ (∀ a, extract_email_address m.from_header = some a →
        (a = cfg.email_address → get_email_category cfg m = none)
        ∧ (a ≠ cfg.email_address → a ∈ cfg.reviewer_email_address_list →
            get_email_category cfg m = some EmailCategory.review)
        ∧ (a ≠ cfg.email_address → a ∉ cfg.reviewer_email_address_list →
            get_email_category cfg m = some EmailCategory.submission)) := by
  unfold get_email_category
  cases he : extract_email_address m.from_header with
  | none =>
      refine ⟨Or.inl rfl, fun _ => rfl, fun a ha => ?_⟩
      exact Option.noConfusion ha
  | some a =>
      refine ⟨?_, fun hn => Option.noConfusion hn, fun b hb => ?_⟩
      · by_cases h1 : a = cfg.email_address
        · exact Or.inl (by simp [h1])
        · by_cases h2 : a ∈ cfg.reviewer_email_address_list
          · exact Or.inr (Or.inl (by simp [h1, h2]))
          · exact Or.inr (Or.inr (by simp [h1, h2]))
      · have hab : a = b := by injection hb
        subst hab
        refine ⟨fun h1 => by simp [h1], fun h1 h2 => by simp [h1, h2],
          fun h1 h2 => by simp [h1, h2]⟩

def cfg_w6 : ReviewSystemConfig :=
  { email_address := "sys@x.y".toList
    email_password := []
    email_imap_host := []
    email_smtp_host := []
    reviewer_email_address_list := ["rev@a.b".toList]
    min_review_count := 2 }

def msg_w6 : EmailMsg :=
  { from_header := "Rev One <rev@a.b>".toList
    subject := "Re: req #QQ==#".toList
    message_id := "<m1@a.b>".toList
    body_text := some "/accept".toList
    seen := true }

/-- Witness for `classifier_total`: a reviewer message classifies as
REVIEW. -/
theorem classifier_total_witness :
    get_email_category cfg_w6 msg_w6 = some EmailCategory.review :=
  (((classifier_total cfg_w6 msg_w6).2.2 ("rev@a.b".toList) (by decide)).2.1
    (by decide) (by decide))

/-- C8: a failure while processing one message of a run's batch does not
abort the batch — the loop's trace attempts every message of the batch in
order, whatever each step returns. -/
theorem run_loop_attempts_all {α σ ε : Type} (step : α → σ → Except ε σ)
    (msgs : List α) (st : σ) :
    (run_loop step msgs st).2.map Prod.fst = msgs := by
  induction msgs generalizing st with
  | nil => rfl
  | cons m rest ih =>
      cases hstep : step m st with
      | ok st2 => simp [run_loop, hstep, ih]
      | error e => simp [run_loop, hstep, ih]

/-- C10: every submission is answered with an acknowledgement to the
author's From address, subject 科协周报投稿已收到, In-Reply-To the
submission's Message-ID, alongside the review request to all
reviewers. -/
theorem submission_ack (cfg : ReviewSystemConfig) (m : EmailMsg) :
    send_submission_notification cfg m ∈ on_receive_submission cfg m
    ∧ (send_submission_notification cfg m).to_header = m.from_header
    ∧ (send_submission_notification cfg m).subject = "科协周报投稿已收到".toList
    ∧ (send_submission_notification cfg m).in_reply_to = some m.message_id
    ∧ send_review_request cfg m ∈ on_receive_submission cfg m
    ∧ (send_review_request cfg m).to_header =
        List.intercalate ", ".toList cfg.reviewer_email_address_list := by
  refine ⟨by simp [on_receive_submission], rfl, rfl, rfl, by simp [on_receive_submission], rfl⟩

lemma countP_filter_list {α : Type} (p q : α → Bool) (l : List α) :
    (l.filter q).countP p = l.countP (fun a => q a && p a) := by
  induction l with
  | nil => rfl
  | cons a rest ih =>
      cases hq : q a <;> cases hp : p a <;>
        simp [List.filter_cons, List.countP_cons, hq, hp, ih]

/-- C3 (amended): `_get_seen_reviews` performs no de-duplication — it is
exactly the filter of the store to seen, tagged, reviewer-classified
messages, so several messages from the same reviewer address are all
counted, each as its own vote, in store enumeration order. -/
theorem seen_reviews_no_dedup (cfg : ReviewSystemConfig) (store : List EmailMsg)
    (sid : List Char) :
    get_seen_reviews cfg store sid =
      store.filter (fun m => m.seen && subject_has_tag sid m.subject &&
        (get_email_category cfg m == some EmailCategory.review))
    ∧ ∀ a : List Char,
      (get_seen_reviews cfg store sid).countP
          (fun m => extract_email_address m.from_header == some a) =
        store.countP (fun m => (m.seen && subject_has_tag sid m.subject &&
          (get_email_category cfg m == some EmailCategory.review)) &&
          (extract_email_address m.from_header == some a)) := by
  refine ⟨get_seen_reviews_eq_filter cfg store sid, fun a => ?_⟩
  rw [get_seen_reviews_eq_filter, countP_filter_list]

def cfg_c3 : ReviewSystemConfig :=
  { email_address := "sys@x.y".toList
    email_password := []
    email_imap_host := []
    email_smtp_host := []
    reviewer_email_address_list := ["rev@a.b".toList]
    min_review_count := 2 }

def msg_c3a : EmailMsg :=
  { from_header := "Rev One <rev@a.b>".toList
    subject := "Re: req #QQ==#".toList
    message_id := "<m1@a.b>".toList
    body_text := some "/accept".toList
    seen := true }

def msg_c3b : EmailMsg :=
  { from_header := "Rev One <rev@a.b>".toList
    subject := "Re: Re: req #QQ==#".toList
    message_id := "<m2@a.b>".toList
    body_text := some "no, bad".toList
    seen := true }

/-- C3 counterexample: two tagged, seen review messages from the same
reviewer address are both counted — the aggregate holds two votes from
`rev@a.b` (count 2, not at most 1), refuting "only the first occurrence
is counted and every later one is discarded". -/
theorem dedup_counterexample :
    (get_seen_reviews cfg_c3 [msg_c3a, msg_c3b] ("QQ==".toList)).countP
        (fun m => extract_email_address m.from_header == some ("rev@a.b".toList)) = 2
    ∧ ((2 : Nat) ≤ 1) = False := by
  decide

/-- C4 (amended): body content never excludes a review from aggregation —
a seen, tagged, reviewer-classified message whose body holds both
`/accept` and `/reject` is aggregated and counts as an accept vote (the
code only searches for `/accept`); a body with no accept command counts
as a non-accept vote, also not excluded. -/
theorem ambiguous_vote_counted (cfg : ReviewSystemConfig) (store : List EmailMsg)
    (sid : List Char) (m : EmailMsg) (t : List Char)
    (hm : m ∈ store) (hs : m.seen = true)
    (ht : subject_has_tag sid m.subject = true)
    (hc : get_email_category cfg m = some EmailCategory.review)
    (hb : m.body_text = some t)
    (hacc : contains_substring accept_cmd t = true)
    (_hrej : contains_substring reject_cmd t = true) :
    m ∈ get_seen_reviews cfg store sid
    ∧ is_accept_vote m = true
    ∧ (∀ m2 : EmailMsg, ∀ t2 : List Char, m2.body_text = some t2 →
        contains_substring accept_cmd t2 = false → is_accept_vote m2 = false) := by
  refine ⟨mem_get_seen_reviews hm hs ht hc, ?_, ?_⟩
  · rw [is_accept_vote, hb]
    exact hacc
  · intro m2 t2 hb2 hnacc
    rw [is_accept_vote, hb2]
    exact hnacc

def cfg_c4 : ReviewSystemConfig :=
  { email_address := "sys@x.y".toList
    email_password := []
    email_imap_host := []
    email_smtp_host := []
    reviewer_email_address_list := ["rev@a.b".toList]
    min_review_count := 1 }

def msg_c4 : EmailMsg :=
  { from_header := "Rev One <rev@a.b>".toList
    subject := "Re: req #QQ==#".toList
    message_id := "<m1@a.b>".toList
    body_text := some "/accept but also /reject".toList
    seen := true }

/-- C4 counterexample: a review whose body holds both `/accept` and
`/reject` is not excluded — with quorum 1 it alone forms the aggregate
and produces ACCEPT, where the claim demands no valid vote at all. -/
theorem ambiguous_vote_counterexample :
    (get_seen_reviews cfg_c4 [msg_c4] ("QQ==".toList)).length = 1
    ∧ contains_substring accept_cmd (msg_c4.body_text.getD []) = true
    ∧ contains_substring reject_cmd (msg_c4.body_text.getD []) = true
    ∧ review_decision cfg_c4 (get_seen_reviews cfg_c4 [msg_c4] ("QQ==".toList)) =
        ReviewOutcome.accepted := by
  decide

/-- Witness for `ambiguous_vote_counted` at a concrete store. -/
theorem ambiguous_vote_counted_witness :
    msg_c4 ∈ get_seen_reviews cfg_c4 [msg_c4] ("QQ==".toList)
    ∧ is_accept_vote msg_c4 = true :=
  have h := ambiguous_vote_counted cfg_c4 [msg_c4] ("QQ==".toList) msg_c4
    ("/accept but also /reject".toList) (by decide) (by decide) (by decide)
    (by decide) (by decide) (by decide) (by decide)
  ⟨h.1, h.2.1⟩

/-- C9: a seen, tagged message whose sender classifies as REVIEW is
counted toward the quorum even when its body is missing or holds no
accept command; it never increments the accept tally, and with no body it
also contributes no feedback text to a rejection notice. -/
theorem non_accept_review_still_counted (cfg : ReviewSystemConfig)
    (store : List EmailMsg) (sid : List Char) (m : EmailMsg)
    (hm : m ∈ store) (hs : m.seen = true)
    (ht : subject_has_tag sid m.subject = true)
    (hc : get_email_category cfg m = some EmailCategory.review)
    (hna : m.body_text = none ∨
      ∃ t, m.body_text = some t ∧ contains_substring accept_cmd t = false) :
    m ∈ get_seen_reviews cfg store sid
    ∧ is_accept_vote m = false
    ∧ (∀ l1 l2 : List EmailMsg,
        accept_review_count (l1 ++ m :: l2) = accept_review_count (l1 ++ l2))
    ∧ (m.body_text = none → extract_reason (m.body_text.getD []) = none) := by
  have hv : is_accept_vote m = false := by
    rcases hna with hnone | ⟨t, hbt, hnacc⟩
    · rw [is_accept_vote, hnone]
    · rw [is_accept_vote, hbt]
      exact hnacc
  refine ⟨mem_get_seen_reviews hm hs ht hc, hv, ?_, ?_⟩
  · intro l1 l2
    rw [accept_review_count_append, accept_review_count_append,
      accept_review_count_cons, hv]
    simp
  · intro hnone
    rw [hnone]
    rfl

def cfg_c9 : ReviewSystemConfig :=
  { email_address := "sys@x.y".toList
    email_password := []
    email_imap_host := []
    email_smtp_host := []
    reviewer_email_address_list := ["rev@a.b".toList]
    min_review_count := 1 }

def msg_c9 : EmailMsg :=
  { from_header := "Rev One <rev@a.b>".toList
    subject := "Re: req #QQ==#".toList
    message_id := "<m1@a.b>".toList
    body_text := none
    seen := true }

/-- Witness for `non_accept_review_still_counted` on a review with no
extractable body. -/
theorem non_accept_review_still_counted_witness :
    msg_c9 ∈ get_seen_reviews cfg_c9 [msg_c9] ("QQ==".toList)
    ∧ is_accept_vote msg_c9 = false :=
  have h := non_accept_review_still_counted cfg_c9 [msg_c9] ("QQ==".toList) msg_c9
    (by decide) (by decide) (by decide) (by decide) (Or.inl rfl)
  ⟨h.1, h.2.1⟩

def cfg_c2 : ReviewSystemConfig :=
  { email_address := "sys@x.y".toList
    email_password := []
    email_imap_host := []
    email_smtp_host := []
    reviewer_email_address_list := ["rev@a.b".toList]
    min_review_count := 1 }

def msg_c2 : EmailMsg :=
  { from_header := "Rev One <rev@a.b>".toList
    subject := "Re: req #QQ==#".toList
    message_id := "<m1@a.b>".toList
    body_text := some "bad".toList
    seen := true }

/-- C2: evaluation at the failing input — one reject vote whose body has
no fenced reason text produces decision REJECT with an *empty* reason
list, although the aggregate holds one reject vote; the vote's (missing)
reason is silently skipped instead of appearing as an empty reason. -/
theorem reject_reason_skipped :
    review_decision cfg_c2 (get_seen_reviews cfg_c2 [msg_c2] ("QQ==".toList)) =
      ReviewOutcome.rejected []
    ∧ (get_seen_reviews cfg_c2 [msg_c2] ("QQ==".toList)).countP
        (fun r => !(is_accept_vote r)) = 1 := by
  decide

/-- C7 (amended): the tag parser returns the token of the first `#…#`
span whose interior is a nonempty run of base64-alphabet characters
(`[A-Za-z0-9+\/=]`), and nothing exactly when no such span exists;
`format_tag` produces `#token#` and parses back to the token. -/
theorem parse_tag_spec (s t0 : List Char) (h0 : t0 ≠ [])
    (hb : ∀ c ∈ t0, isB64 c = true) :
    (parse_tag s = none ↔ ¬ HasSpan s)
    ∧ (∀ t, parse_tag s = some t → TagMatch s t)
    ∧ parse_tag (format_tag t0) = some t0 := by
  refine ⟨parse_tag_none_iff s, fun t h => parse_tag_sound s t h, ?_⟩
  rw [format_tag, parse_tag, if_pos rfl]
  have h1 : (t0 ++ ['#']).takeWhile isB64 = t0 := by
    have := takeWhile_all_append t0 [] hb
    simpa using this
  have h2 : (t0 ++ ['#']).drop ((t0 ++ ['#']).takeWhile isB64).length = ['#'] := by
    have := drop_takeWhile_append t0 [] hb
    simpa using this
  split
  · next tl heq =>
      rw [if_neg ?_]
      · rw [h1]
      · rw [h1]
        intro hemp
        exact h0 (List.isEmpty_iff.mp hemp)
  · next hnomatch => exact absurd h2 (fun hh => hnomatch [] hh)

/-- Witness for `parse_tag_spec`: the round-trip clause at the token
`QQ==`. -/
theorem parse_tag_spec_witness :
    parse_tag (format_tag ("QQ==".toList)) = some ("QQ==".toList) :=
  (parse_tag_spec [] ("QQ==".toList) (by decide) (by decide)).2.2

/-- C7 counterexample: on the subject `#a b#c#` the first `#…#` span with
no embedded `#` has interior `a b`, but the code's parser (restricted to
the base64 alphabet) returns `c`, and the utility module's greedy
`#(.+)#` parser returns `a b#c`; all three disagree with the claim. -/
theorem parse_tag_counterexample :
    spec_parse_tag ("#a b#c#".toList) = some ("a b".toList)
    ∧ parse_tag ("#a b#c#".toList) = some ("c".toList)
    ∧ extract_submission_id_from_subject ("#a b#c#".toList) = some ("a b#c".toList)
    ∧ ("a b".toList : List Char) ≠ "c".toList := by
  decide

end EmailSubmission
